import Mathlib

/-!
Verification of the lokascript scanner/aggregator core
(src/packages/lokascript-python/lokascript/scanner.py and aggregator.py),
shallowly embedded in Lean 4.

Modelling conventions:
* Python strings are `List Char` (`Chars`); `str.lower()` is `Char.toLower`
  per character (the source's data keywords are already lower-case and the
  concrete inputs used here are ASCII-cased, so the ASCII fold is exact on
  everything evaluated).
* Python `set[str]` is `Finset String`; `dict[str, FileUsage]` is an
  insertion-ordered association list `List (String × FileUsage)` with
  unique-key operations mirroring dict get/put/del semantics.
* The regular expressions of scanner.py are translated pattern by pattern
  into deterministic scanners; each translation is noted at its definition.
-/

namespace Lokascript

abbrev Chars := List Char

/-- Python whitespace class `\s` (ASCII part, as exercised by the source's
template syntax): space, tab, newline, carriage return, vertical tab, form feed. -/
def isPySpace (c : Char) : Bool :=
  c = ' ' || c = '\t' || c = '\n' || c = '\r' || c = Char.ofNat 11 || c = Char.ofNat 12

/-- `str.strip()`: drop leading and trailing whitespace. -/
def pyStrip (s : Chars) : Chars :=
  ((s.dropWhile isPySpace).reverse.dropWhile isPySpace).reverse

/-- `str.lower()` (ASCII case fold, see header note). -/
def lowerChars (s : Chars) : Chars := s.map Char.toLower

def lowerStr (s : String) : String := String.mk (lowerChars s.toList)

/-- A word character for the regex `\b` boundary: Python `\w` is ASCII
alphanumerics, underscore, and Unicode word characters; every non-ASCII
character appearing in the source's keyword data is a letter, so code points
at or above 0x80 are treated as word characters. -/
def isWordChar (c : Char) : Bool :=
  c.isAlphanum || c = '_' || decide (c.val ≥ 0x80)

/-- A `\b` boundary against an adjacent character (none = string edge). -/
def boundaryOk : Option Char → Bool
  | none => true
  | some c => !isWordChar c

/-- Python `needle in hay` (substring containment). -/
def containsSub (needle : Chars) : Chars → Bool
  | [] => needle.isEmpty
  | c :: t => needle.isPrefixOf (c :: t) || containsSub needle t

/-- Scan every position of the string, remembering the previous character,
and test `p prev suffix` at each; true if any position matches. -/
def scanBW (p : Option Char → Chars → Bool) : Option Char → Chars → Bool
  | prev, [] => p prev []
  | prev, c :: t => p prev (c :: t) || scanBW p (some c) t

/-- `re.search(rf"\b{kw}\b", s)` for a keyword that starts and ends with
word characters (true of every keyword and vocabulary word in the source):
an occurrence of `kw` with non-word characters (or string edges) adjacent. -/
def wholeWord (kw : Chars) (s : Chars) : Bool :=
  scanBW
    (fun prev suf =>
      boundaryOk prev && kw.isPrefixOf suf && boundaryOk (suf.drop kw.length).head?)
    none s

/-! ## PatternLibrary: language data and regional bundles (scanner.py) -/

def SUPPORTED_LANGUAGES : List String :=
  ["en", "es", "pt", "fr", "de", "it", "vi",
   "pl", "ru", "uk",
   "ja", "zh", "ko",
   "ar",
   "hi", "bn",
   "th",
   "tr",
   "id", "sw", "qu", "tl"]

def regionWestern : List String := ["en", "es", "pt", "fr", "de", "it"]

def regionEastAsian : List String := ["ja", "zh", "ko"]

def regionSoutheastAsian : List String := ["id", "vi", "th", "tl"]

def regionSouthAsian : List String := ["hi", "bn"]

def regionSlavic : List String := ["pl", "ru", "uk"]

def regionPriority : List String :=
  ["en", "es", "pt", "fr", "de", "it", "ja", "zh", "ko", "ar", "tr", "id", "vi"]

/-- The `REGIONS` dict of scanner.py, in its literal entry order. -/
def REGIONS : List (String × List String) :=
  [("western", regionWestern),
   ("east-asian", regionEastAsian),
   ("southeast-asian", regionSoutheastAsian),
   ("south-asian", regionSouthAsian),
   ("slavic", regionSlavic),
   ("priority", regionPriority),
   ("all", SUPPORTED_LANGUAGES)]

def regionLangs (r : String) : List String :=
  match REGIONS.find? (fun p => p.1 = r) with
  | some p => p.2
  | none => []

/-- `get_optimal_region` of scanner.py: `None` on an empty set, else the
first of the five small regions whose code list covers every input language,
then `priority`, else `all`. `all(lang in REGIONS[r] for lang in lang_list)`
is the bounded quantifier over the `Finset`. -/
def get_optimal_region (languages : Finset String) : Option String :=
  if languages = ∅ then none
  else if ∀ l ∈ languages, l ∈ regionEastAsian then some "east-asian"
  else if ∀ l ∈ languages, l ∈ regionSouthAsian then some "south-asian"
  else if ∀ l ∈ languages, l ∈ regionSlavic then some "slavic"
  else if ∀ l ∈ languages, l ∈ regionSoutheastAsian then some "southeast-asian"
  else if ∀ l ∈ languages, l ∈ regionWestern then some "western"
  else if ∀ l ∈ languages, l ∈ regionPriority then some "priority"
  else some "all"

/-- The language-code list of a region-selection result (absent → no codes). -/
def optionRegionLangs : Option String → List String
  | none => []
  | some r => regionLangs r

/-- Modelled from the spec's words for the region-selection contract
(§4.5): test the fixed regions smallest-first in the literal order
east-asian, south-asian, slavic, southeast-asian, western, returning the
first full superset; then `priority`; else the catch-all `all`. -/
def firstSuperset (S : Finset String) : List String → Option String
  | [] => none
  | r :: rest => if ∀ l ∈ S, l ∈ regionLangs r then some r else firstSuperset S rest

def specCheckOrder : List String :=
  ["east-asian", "south-asian", "slavic", "southeast-asian", "western"]

def specSelectRegion (S : Finset String) : Option String :=
  if S = ∅ then none
  else
    match firstSuperset S specCheckOrder with
    | some r => some r
    | none => if ∀ l ∈ S, l ∈ regionLangs "priority" then some "priority" else some "all"

/-! ## FileUsage and AggregatedUsage (scanner.py) -/

structure FileUsage where
  commands : Finset String
  blocks : Finset String
  positional : Bool
  detected_languages : Finset String
deriving DecidableEq

def emptyFileUsage : FileUsage := ⟨∅, ∅, false, ∅⟩

/-- `FileUsage.__bool__`: `bool(self.commands or self.blocks or self.positional)`. -/
def FileUsage.truthy (u : FileUsage) : Prop :=
  u.commands ≠ ∅ ∨ u.blocks ≠ ∅ ∨ u.positional = true

instance (u : FileUsage) : Decidable u.truthy := by
  unfold FileUsage.truthy; infer_instance

/-- `FileUsage.merge`: union per set field, OR for `positional` (the source
mutates `self`; modelled as the merged value). -/
def FileUsage.merge (a b : FileUsage) : FileUsage :=
  ⟨a.commands ∪ b.commands, a.blocks ∪ b.blocks,
   a.positional || b.positional, a.detected_languages ∪ b.detected_languages⟩

structure AggregatedUsage where
  commands : Finset String
  blocks : Finset String
  positional : Bool
  file_usage : List (String × FileUsage)
  detected_languages : Finset String
deriving DecidableEq

/-! ## Extractor: the HYPERSCRIPT_PATTERNS regexes of scanner.py

Each regex is translated into a matcher `Chars → Option (Chars × Chars)`
(the capture group and the rest after the whole match, or `none` when the
regex does not match at this position). The captures `[^q]*`/`[^q]+` are
runs of non-delimiter characters, so the greedy regex semantics is exactly
"up to the next delimiter" and the translation is deterministic. -/

def dqChar : Char := '"'

def sqChar : Char := '\''

def btChar : Char := '`'

def dropLit (lit : Chars) (s : Chars) : Option Chars :=
  if lit.isPrefixOf s then some (s.drop lit.length) else none

/-- Case-insensitive literal match (`re.IGNORECASE`); `lit` is lower-case. -/
def dropLitCI (lit : Chars) (s : Chars) : Option Chars :=
  if lowerChars (s.take lit.length) = lit then some (s.drop lit.length) else none

/-- Capture `([^q]*)` followed by the literal `q`: the characters before the
next `q`, consuming it; `none` when `q` never occurs. -/
def splitOnChar (q : Char) : Chars → Option (Chars × Chars)
  | [] => none
  | c :: t =>
    if c = q then some ([], t)
    else (splitOnChar q t).map (fun pr => (c :: pr.1, pr.2))

/-- Lazy `(.*?)` (DOTALL) up to the first position where `m` matches,
consuming that match. -/
def splitOnMatcher (m : Chars → Option Chars) : Chars → Option (Chars × Chars)
  | [] =>
    match m [] with
    | some rest => some ([], rest)
    | none => none
  | c :: t =>
    match m (c :: t) with
    | some rest => some ([], rest)
    | none => (splitOnMatcher m t).map (fun pr => (c :: pr.1, pr.2))

/-- `\s*`. -/
def dropWs (s : Chars) : Chars := s.dropWhile isPySpace

/-- `\s+`: at least one whitespace character (greedy; every continuation in
the source's patterns starts with a non-whitespace character, so greedy
matching without backtracking is exact). -/
def wsPlus : Chars → Option Chars
  | [] => none
  | c :: t => if isPySpace c then some (dropWs t) else none

/-- `OPEN([^q]*)q`, e.g. `_="([^"]*)"` with OPEN = `_="` and q = `"`. -/
def patAttrQ (openLit : Chars) (q : Char) (s : Chars) : Option (Chars × Chars) :=
  match dropLit openLit s with
  | some t => splitOnChar q t
  | none => none

/-- `_=\{`([^`]+)`\}` (JSX template literal). -/
def patJsxBacktick (s : Chars) : Option (Chars × Chars) :=
  match dropLit ("_=\x7b`".toList) s with
  | none => none
  | some t =>
    match splitOnChar btChar t with
    | none => none
    | some (cap, r) =>
      if cap.isEmpty then none
      else
        match dropLit ("\x7d".toList) r with
        | some r2 => some (cap, r2)
        | none => none

/-- `_=\{['\"]([^'\"]+)['\"]\}` (JSX quoted; the char class lets the closing
quote differ from the opening one, as in the source regex). -/
def patJsxQuote (s : Chars) : Option (Chars × Chars) :=
  match dropLit ("_=\x7b".toList) s with
  | none => none
  | some [] => none
  | some (c :: t2) =>
    if c = dqChar || c = sqChar then
      let cap := t2.takeWhile (fun d => d ≠ dqChar && d ≠ sqChar)
      match t2.drop cap.length with
      | d :: r2 =>
        if cap.isEmpty then none
        else if d = dqChar || d = sqChar then
          match dropLit ("\x7d".toList) r2 with
          | some r3 => some (cap, r3)
          | none => none
        else none
      | [] => none
    else none

/-- `\{%\s*WORD\s*%\}` (a Django tag marker); returns the rest after it. -/
def tagMarker (word : Chars) (s : Chars) : Option Chars :=
  match dropLit ("\x7b%".toList) s with
  | none => none
  | some t =>
    match dropLit word (dropWs t) with
    | none => none
    | some t2 => dropLit ("%\x7d".toList) (dropWs t2)

/-- `\{%\s*hs\s*%\}(.*?)\{%\s*endhs\s*%\}` (DOTALL). -/
def patHsBlock (s : Chars) : Option (Chars × Chars) :=
  match tagMarker ("hs".toList) s with
  | none => none
  | some t => splitOnMatcher (tagMarker ("endhs".toList)) t

/-- `\{%\s*WORD\s+q([^q]+)q\s*%\}` (the `hs_attr`/`hs_script` simple tags). -/
def patSimpleTag (word : Chars) (q : Char) (s : Chars) : Option (Chars × Chars) :=
  match dropLit ("\x7b%".toList) s with
  | none => none
  | some t =>
    match dropLit word (dropWs t) with
    | none => none
    | some t2 =>
      match wsPlus t2 with
      | none => none
      | some t3 =>
        match dropLit [q] t3 with
        | none => none
        | some t4 =>
          match splitOnChar q t4 with
          | none => none
          | some (cap, r) =>
            if cap.isEmpty then none
            else
              match dropLit ("%\x7d".toList) (dropWs r) with
              | some r2 => some (cap, r2)
              | none => none

/-- `["\']?`: an optional quote character (consuming it is exact here: the
continuation after the first use starts with `t`, never a quote, and after
the second use a quote is equally absorbed by the following `[^>]*`). -/
def optQuote : Chars → Chars
  | [] => []
  | c :: t => if c = dqChar || c = sqChar then t else c :: t

/-- The tail `type=["\']?text/hyperscript["\']?[^>]*>(.*?)</script>` of the
script-tag regex, at a fixed position (case-insensitive). -/
def matchTypeRest (s : Chars) : Option (Chars × Chars) :=
  match dropLitCI ("type=".toList) s with
  | none => none
  | some t =>
    match dropLitCI ("text/hyperscript".toList) (optQuote t) with
    | none => none
    | some t2 =>
      let t3 := optQuote t2
      match t3.drop (t3.takeWhile (fun c => c ≠ '>')).length with
      | _ :: r => splitOnMatcher (dropLitCI ("</script>".toList)) r
      | [] => none

/-- The greedy `[^>]*` before `type=`: try the longest run first and
backtrack one character at a time, as the regex engine does. -/
def tryTypeFrom (t : Chars) : Nat → Option (Chars × Chars)
  | 0 => matchTypeRest t
  | k + 1 =>
    match matchTypeRest (t.drop (k + 1)) with
    | some r => some r
    | none => tryTypeFrom t k

/-- `<script[^>]*type=["\']?text/hyperscript["\']?[^>]*>(.*?)</script>`
with `re.DOTALL | re.IGNORECASE`. -/
def patScriptTag (s : Chars) : Option (Chars × Chars) :=
  match dropLitCI ("<script".toList) s with
  | none => none
  | some t => tryTypeFrom t (t.takeWhile (fun c => c ≠ '>')).length

/-- `HYPERSCRIPT_PATTERNS` of scanner.py, in the source's list order. -/
def HYPERSCRIPT_PATTERNS : List (Chars → Option (Chars × Chars)) :=
  [patAttrQ ("_=\"".toList) dqChar,
   patAttrQ ("_='".toList) sqChar,
   patAttrQ ("_=`".toList) btChar,
   patJsxBacktick,
   patJsxQuote,
   patAttrQ ("data-hs=\"".toList) dqChar,
   patAttrQ ("data-hs='".toList) sqChar,
   patHsBlock,
   patSimpleTag ("hs_attr".toList) dqChar,
   patSimpleTag ("hs_attr".toList) sqChar,
   patSimpleTag ("hs_script".toList) dqChar,
   patSimpleTag ("hs_script".toList) sqChar,
   patScriptTag]

/-- `pattern.finditer(content)`: scan left to right, at each position try the
matcher; on a match record (start position, capture) and continue after the
match (non-overlapping), else advance one character. Every pattern consumes
at least one character on a match, so fuel `length + 1` never runs out. -/
def findCapsPos (m : Chars → Option (Chars × Chars)) :
    Nat → Nat → Chars → List (Nat × Chars)
  | 0, _, _ => []
  | fuel + 1, pos, s =>
    match m s with
    | some (cap, rest) =>
      (pos, cap) :: findCapsPos m fuel (pos + (s.length - rest.length)) rest
    | none =>
      match s with
      | [] => []
      | _ :: t => findCapsPos m fuel (pos + 1) t

def patternMatches (m : Chars → Option (Chars × Chars)) (content : Chars) :
    List (Nat × Chars) :=
  findCapsPos m (content.length + 1) 0 content

/-- The body of the extraction loop: `script = match.group(1).strip()`, and
append when non-empty. -/
def appendScript (acc : List Chars) (pc : Nat × Chars) : List Chars :=
  let script := pyStrip pc.2
  if script.isEmpty then acc else acc ++ [script]

/-- `Scanner.extract_hyperscript`: for each pattern in order, for each match
in order, append the stripped capture when it is non-empty. -/
def extract_hyperscript (content : Chars) : List Chars :=
  HYPERSCRIPT_PATTERNS.foldl
    (fun scripts pat => (patternMatches pat content).foldl appendScript scripts)
    []

/-! ## Classifier: command, block, positional and language detection -/

/-- The alternatives of `COMMAND_PATTERN`, in the regex's order. Since each
alternative is a whole word between `\b` anchors, a (case-insensitive,
non-overlapping) match exists for an alternative exactly when it occurs as a
whole word; `finditer` adds each match lower-cased to a set. -/
def COMMAND_WORDS : List String :=
  ["toggle", "add", "remove", "removeClass", "show", "hide", "set", "get", "put",
   "append", "take", "increment", "decrement", "log", "send", "trigger", "wait",
   "transition", "go", "call", "focus", "blur", "return"]

def detectCommands (script : Chars) : Finset String :=
  ((COMMAND_WORDS.filter
      (fun w => wholeWord (lowerChars w.toList) (lowerChars script))).map lowerStr).toFinset

/-- `times?\b`: `times` then a boundary, else `time` then a boundary. -/
def timesTail (s : Chars) : Bool :=
  match dropLit ("times".toList) s with
  | some r => boundaryOk r.head?
  | none =>
    match dropLit ("time".toList) s with
    | some r => boundaryOk r.head?
    | none => false

def afterRepArg (rest : Chars) : Bool :=
  match wsPlus rest with
  | some t => timesTail t
  | none => false

/-- The argument alternation `(\d+|:\w+|\$\w+|[\w.]+)` of the repeat-block
regex, each alternative a greedy run followed by the required `\s+` and
`times?\b`. Alternatives are tried in the regex's order; when an earlier
alternative's run is followed by whitespace, later alternatives yield the
same run, so committing per alternative equals the engine's backtracking. -/
def repArgThen (s : Chars) : Bool :=
  (let run := s.takeWhile Char.isDigit
   !run.isEmpty && afterRepArg (s.drop run.length)) ||
  (match s with
   | c :: t =>
     c = ':' &&
       (let run := t.takeWhile isWordChar
        !run.isEmpty && afterRepArg (t.drop run.length))
   | [] => false) ||
  (match s with
   | c :: t =>
     c = '$' &&
       (let run := t.takeWhile isWordChar
        !run.isEmpty && afterRepArg (t.drop run.length))
   | [] => false) ||
  (let run := s.takeWhile (fun c => isWordChar c || c = '.')
   !run.isEmpty && afterRepArg (s.drop run.length))

/-- `\brepeat\s+(\d+|:\w+|\$\w+|[\w.]+)\s+times?\b` (on the lowered script,
for IGNORECASE). -/
def repeatBlockMatch (script : Chars) : Bool :=
  scanBW
    (fun prev suf =>
      boundaryOk prev &&
        (match dropLit ("repeat".toList) suf with
         | some t =>
           (match wsPlus t with
            | some t2 => repArgThen t2
            | none => false)
         | none => false))
    none script

/-- `\bfor\s+(each|every)\b`. -/
def forEachMatch (script : Chars) : Bool :=
  scanBW
    (fun prev suf =>
      boundaryOk prev &&
        (match dropLit ("for".toList) suf with
         | some t =>
           (match wsPlus t with
            | some t2 =>
              (match dropLit ("each".toList) t2 with
               | some r => boundaryOk r.head?
               | none =>
                 match dropLit ("every".toList) t2 with
                 | some r => boundaryOk r.head?
                 | none => false)
            | none => false)
         | none => false))
    none script

/-- `BLOCK_PATTERNS` key order. -/
def BLOCK_NAMES : List String :=
  ["if", "unless", "repeat", "for", "while", "fetch", "async"]

def blockMatches (name : String) (script : Chars) : Bool :=
  if name = "if" then wholeWord ("if".toList) (lowerChars script)
  else if name = "unless" then wholeWord ("unless".toList) (lowerChars script)
  else if name = "repeat" then repeatBlockMatch (lowerChars script)
  else if name = "for" then forEachMatch (lowerChars script)
  else if name = "while" then wholeWord ("while".toList) (lowerChars script)
  else if name = "fetch" then wholeWord ("fetch".toList) (lowerChars script)
  else if name = "async" then wholeWord ("async".toList) (lowerChars script)
  else false

/-- Block detection loop of `analyze_script`: `unless` is recorded under its
canonical name `if`. -/
def detectBlocks (script : Chars) : Finset String :=
  BLOCK_NAMES.foldl
    (fun blocks name =>
      if blockMatches name script then
        insert (if name = "unless" then "if" else name) blocks
      else blocks)
    ∅

/-- `POSITIONAL_PATTERN` alternatives. -/
def POSITIONAL_WORDS : List String :=
  ["first", "last", "next", "previous", "closest", "parent"]

def detectPositional (script : Chars) : Bool :=
  POSITIONAL_WORDS.any (fun w => wholeWord w.toList (lowerChars script))

/-- `LANGUAGE_KEYWORDS` of scanner.py, entries in the dict's insertion order. -/
def LANGUAGE_KEYWORDS : List (String × List String) :=
  [("ja",
    ["トグル", "切り替え", "追加", "削除", "表示", "隠す", "非表示",
     "設定", "セット", "増加", "減少", "ログ", "出力",
     "クリック", "入力", "変更", "フォーカス",
     "もし", "繰り返し", "待つ", "待機",
     "私", "それ", "結果",
     "最初", "最後", "次", "前"]),
   ("ko",
    ["토글", "전환", "추가", "제거", "삭제", "표시", "숨기다",
     "설정", "증가", "감소", "로그",
     "클릭", "입력", "변경", "포커스",
     "만약", "반복", "대기",
     "나", "내", "그것", "결과",
     "첫번째", "마지막", "다음", "이전"]),
   ("zh",
    ["切换", "添加", "移除", "删除", "显示", "隐藏",
     "设置", "设定", "增加", "减少", "日志", "记录",
     "点击", "输入", "改变", "聚焦",
     "如果", "重复", "等待",
     "我", "它", "结果",
     "第一", "最后", "下一个", "上一个"]),
   ("ar",
    ["بدّل", "بدل", "أضف", "اضف", "أزل", "ازل", "احذف",
     "أظهر", "اظهر", "أخفِ", "اخف",
     "ضع", "اضع", "زِد", "أنقص",
     "عند", "نقر", "إدخال", "تغيير",
     "إذا", "كرر", "انتظر",
     "أنا", "هو", "النتيجة"]),
   ("es",
    ["alternar", "añadir", "agregar", "quitar", "eliminar",
     "mostrar", "ocultar", "esconder",
     "establecer", "fijar", "incrementar", "decrementar",
     "clic", "entrada", "cambio",
     "sino", "repetir", "esperar", "mientras",
     "yo", "ello", "resultado",
     "primero", "último", "siguiente", "anterior"]),
   ("pt",
    ["adicionar", "remover", "esconder",
     "definir", "clique", "mudança",
     "senão", "aguardar", "enquanto",
     "eu", "isso",
     "próximo"]),
   ("fr",
    ["basculer", "ajouter", "supprimer", "retirer",
     "afficher", "montrer", "cacher", "masquer",
     "définir", "incrémenter", "décrémenter",
     "cliquer", "saisie", "changement",
     "sinon", "répéter", "attendre", "pendant",
     "moi", "cela", "résultat",
     "premier", "dernier", "suivant", "précédent"]),
   ("de",
    ["umschalten", "hinzufügen", "entfernen", "löschen",
     "anzeigen", "zeigen", "verbergen", "verstecken",
     "setzen", "festlegen", "erhöhen", "verringern",
     "klick", "eingabe", "änderung",
     "wenn", "sonst", "wiederholen", "warten", "während",
     "ich", "ergebnis",
     "erste", "letzte", "nächste", "vorherige"]),
   ("tr",
    ["değiştir", "değistir", "ekle", "kaldır", "kaldir", "sil",
     "göster", "gizle", "sakla",
     "ayarla", "belirle", "arttır", "azalt",
     "tıklama", "tiklama", "giriş", "giris", "değişim", "degisim",
     "eğer", "eger", "yoksa", "tekrarla", "bekle", "süresince",
     "ben", "sonuç", "sonuc",
     "ilk", "son", "sonraki", "önceki", "onceki"]),
   ("id",
    ["alih", "beralih", "tambah", "hapus", "buang",
     "tampilkan", "sembunyikan",
     "atur", "tetapkan", "tambahkan", "kurangi",
     "klik", "masukan", "perubahan",
     "jika", "kalau", "ulangi", "tunggu", "selama",
     "saya", "itu", "hasil",
     "pertama", "terakhir", "berikutnya", "sebelumnya"]),
   ("sw",
    ["badilisha", "ongeza", "ondoa", "futa",
     "onyesha", "ficha",
     "weka", "sanidi", "ongezea", "punguza",
     "bofya", "ingizo", "badiliko",
     "ikiwa", "kama", "rudia", "subiri", "wakati",
     "mimi", "hiyo", "matokeo",
     "kwanza", "mwisho", "inayofuata", "iliyotangulia"]),
   ("qu",
    ["tikray", "yapay", "qichuy", "pichay",
     "rikuchiy", "pakay",
     "churay", "pisiyachiy",
     "ñit'iy", "yaykuchiy",
     "sichus", "mana", "kutipay", "suyay", "chaykama",
     "ñuqa", "chay", "lluqsisqa",
     "ñawpaq", "qhipa", "hamuq", "ñawpaqnin"]),
   ("it",
    ["commutare", "alternare", "aggiungere", "rimuovere", "eliminare",
     "mostrare", "nascondere", "impostare", "incrementare", "decrementare",
     "clic", "ingresso", "cambiamento",
     "altrimenti", "ripetere", "aspettare", "attendere", "mentre",
     "risultato",
     "primo", "ultimo", "successivo", "precedente"]),
   ("vi",
    ["chuyển đổi", "bật tắt", "thêm", "xóa", "gỡ bỏ",
     "hiển thị", "ẩn", "gán", "thiết lập", "tăng", "giảm",
     "kích hoạt", "gửi",
     "nếu", "không thì", "lặp lại", "chờ", "đợi", "trong khi",
     "kết quả",
     "đầu tiên", "cuối cùng", "tiếp theo", "trước"]),
   ("pl",
    ["przełącz", "przelacz", "dodaj", "usuń", "usun",
     "pokaż", "pokaz", "ukryj", "ustaw", "zwiększ", "zwieksz", "zmniejsz",
     "kliknięcie", "klikniecie", "wywołaj", "wywolaj", "wyślij", "wyslij",
     "jeśli", "jesli", "jeżeli", "jezeli", "inaczej", "powtórz", "powtorz",
     "czekaj", "poczekaj", "dopóki", "dopoki",
     "wynik",
     "pierwszy", "ostatni", "następny", "nastepny", "poprzedni"]),
   ("ru",
    ["переключить", "добавить", "удалить", "убрать",
     "показать", "скрыть", "установить", "увеличить", "уменьшить",
     "вызвать", "отправить",
     "если", "иначе", "повторить", "ждать", "пока",
     "результат",
     "первый", "последний", "следующий", "предыдущий"]),
   ("uk",
    ["перемкнути", "додати", "видалити", "прибрати",
     "показати", "сховати", "приховати", "встановити", "збільшити", "зменшити",
     "викликати", "надіслати",
     "якщо", "інакше", "повторити", "чекати", "поки",
     "результат",
     "перший", "останній", "наступний", "попередній"]),
   ("hi",
    ["टॉगल", "बदलें", "जोड़ें", "हटाएं", "मिटाएं",
     "दिखाएं", "छिपाएं", "सेट", "बढ़ाएं", "घटाएं",
     "ट्रिगर", "भेजें",
     "अगर", "यदि", "वरना", "दोहराएं", "प्रतीक्षा", "जब तक",
     "परिणाम",
     "पहला", "आखिरी", "अगला", "पिछला"]),
   ("bn",
    ["টগল", "পরিবর্তন", "যোগ", "সরান", "মুছুন",
     "দেখান", "লুকান", "সেট", "বৃদ্ধি", "হ্রাস",
     "ট্রিগার", "পাঠান",
     "যদি", "নতুবা", "পুনরাবৃত্তি", "অপেক্ষা", "যতক্ষণ",
     "ফলাফল",
     "প্রথম", "শেষ", "পরবর্তী", "আগের"]),
   ("th",
    ["สลับ", "เพิ่ม", "ลบ", "ลบออก",
     "แสดง", "ซ่อน", "ตั้ง", "กำหนด", "เพิ่มค่า", "ลดค่า",
     "ทริกเกอร์", "ส่ง",
     "ถ้า", "หาก", "ไม่งั้น", "ทำซ้ำ", "รอ", "ในขณะที่",
     "ผลลัพธ์",
     "แรก", "สุดท้าย", "ถัดไป", "ก่อนหน้า"]),
   ("tl",
    ["palitan", "itoggle", "idagdag", "magdagdag", "alisin", "tanggalin",
     "ipakita", "magpakita", "itago", "magtago",
     "itakda", "magtakda", "dagdagan", "taasan", "bawasan", "ibaba",
     "magpatugtog", "ipadala", "magpadala",
     "kung", "kapag", "kung_hindi", "kundi", "ulitin", "paulit-ulit",
     "maghintay", "hintay", "habang"])]

/-- The `non_latin_langs` set of `detect_languages`. -/
def NON_LATIN_LANGS : List String :=
  ["ja", "ko", "zh", "ar", "ru", "uk", "hi", "bn", "th"]

/-- Whether a language's keyword loop in `detect_languages` records a hit:
non-Latin-script languages by substring containment in the raw script,
Latin-script ones by a whole-word match of each keyword longer than two
characters against the lower-cased script (shorter keywords are skipped). -/
def langHit (lang : String) (kws : List String) (script : Chars) : Bool :=
  if lang ∈ NON_LATIN_LANGS then
    kws.any (fun kw => containsSub kw.toList script)
  else
    kws.any
      (fun kw =>
        decide (2 < kw.length) && wholeWord (lowerChars kw.toList) (lowerChars script))

/-- `detect_languages` of scanner.py. -/
def detect_languages (script : Chars) : Finset String :=
  LANGUAGE_KEYWORDS.foldl
    (fun detected entry =>
      if langHit entry.1 entry.2 script then insert entry.1 detected else detected)
    ∅

/-- `Scanner.analyze_script`. -/
def analyze_script (script : Chars) : FileUsage :=
  ⟨detectCommands script, detectBlocks script, detectPositional script,
   detect_languages script⟩

/-- `Scanner.scan_content`: extract all scripts, analyze each, merge into an
accumulator starting from the empty usage (debug logging is a no-op). -/
def scan_content (content : Chars) : FileUsage :=
  (extract_hyperscript content).foldl
    (fun usage s => usage.merge (analyze_script s)) emptyFileUsage

/-! ## FileScanner: configuration, file and directory scans

File reading is modelled by a function `read : String → Option Chars`
(`none` = any read failure: missing file, permission denied, encoding
error — the source catches every exception), and a directory by its
existence flag and the regular files its recursive walk yields. -/

structure Scanner where
  include_extensions : List String
  exclude_patterns : List String
  debug : Bool

def defaultScanner : Scanner :=
  ⟨[".html", ".htm", ".txt", ".xml", ".jinja", ".jinja2"],
   ["__pycache__", ".git", "node_modules", ".venv", "venv", "site-packages"],
   false⟩

/-- `pathlib.Path(p).suffix`: the final component's extension (empty when
there is no dot, the dot is the name's first character, or it is last). -/
def pathSuffix (p : Chars) : Chars :=
  let name := (p.reverse.takeWhile (fun c => c ≠ '/')).reverse
  let revName := name.reverse
  let afterDot := revName.takeWhile (fun c => c ≠ '.')
  if afterDot.length = revName.length then []
  else if afterDot.length = 0 then []
  else if afterDot.length + 1 = name.length then []
  else '.' :: afterDot.reverse

/-- `Scanner.should_scan`. -/
def Scanner.should_scan (sc : Scanner) (path : String) : Bool :=
  sc.include_extensions.contains (String.mk (lowerChars (pathSuffix path.toList))) &&
  !(sc.exclude_patterns.any (fun pat => containsSub pat.toList path.toList))

/-- `Scanner.scan_file`: on any read failure return the empty usage (the
function is total — no exception escapes to the caller). -/
def Scanner.scan_file (sc : Scanner) (read : String → Option Chars)
    (path : String) : FileUsage :=
  match read path with
  | some content => scan_content content
  | none => emptyFileUsage

structure Directory where
  present : Bool
  files : List String

/-- `Scanner.scan_directory`: empty mapping when the root does not exist;
otherwise scan every eligible file and keep only truthy results. -/
def Scanner.scan_directory (sc : Scanner) (read : String → Option Chars)
    (d : Directory) : List (String × FileUsage) :=
  if d.present = false then []
  else
    d.files.foldl
      (fun results path =>
        if sc.should_scan path then
          let usage := sc.scan_file read path
          if usage.truthy then results ++ [(path, usage)] else results
        else results)
      []

/-! ## Aggregator (aggregator.py) -/

/-- `dict.get`. -/
def lookupFU : List (String × FileUsage) → String → Option FileUsage
  | [], _ => none
  | (k, v) :: t, p => if k = p then some v else lookupFU t p

/-- `dict[p] = u`: replace in place when the key exists, append otherwise. -/
def insertFU : List (String × FileUsage) → String → FileUsage → List (String × FileUsage)
  | [], p, u => [(p, u)]
  | (k, v) :: t, p, u => if k = p then (k, u) :: t else (k, v) :: insertFU t p u

/-- `del dict[p]`. -/
def eraseFU : List (String × FileUsage) → String → List (String × FileUsage)
  | [], _ => []
  | (k, v) :: t, p => if k = p then t else (k, v) :: eraseFU t p

structure Aggregator where
  file_usage : List (String × FileUsage)
  cached_usage : Option AggregatedUsage

def Aggregator.empty : Aggregator := ⟨[], none⟩

/-- `Aggregator.add`: when the path is tracked AND the stored usage is truthy
(`if existing:` uses `FileUsage.__bool__`) AND commands, blocks and
positional all agree, return `False` without touching anything; otherwise
store the new usage, drop the cache, and return `True`. -/
def Aggregator.add (a : Aggregator) (file_path : String) (usage : FileUsage) :
    Bool × Aggregator :=
  match lookupFU a.file_usage file_path with
  | some existing =>
    if existing.truthy ∧
        existing.commands = usage.commands ∧
        existing.blocks = usage.blocks ∧
        existing.positional = usage.positional then
      (false, a)
    else
      (true, ⟨insertFU a.file_usage file_path usage, none⟩)
  | none => (true, ⟨insertFU a.file_usage file_path usage, none⟩)

/-- `Aggregator.remove`. -/
def Aggregator.remove (a : Aggregator) (file_path : String) : Bool × Aggregator :=
  match lookupFU a.file_usage file_path with
  | some _ => (true, ⟨eraseFU a.file_usage file_path, none⟩)
  | none => (false, a)

/-- The recomputation loop of `get_usage`: union of every tracked usage's
fields (commands, blocks, OR of positional, languages). Written as a
structural recursion; the source's left-to-right loop computes the same
unions. -/
def unionUsages : List (String × FileUsage) →
    Finset String × Finset String × Bool × Finset String
  | [] => (∅, ∅, false, ∅)
  | (_, u) :: t =>
    let r := unionUsages t
    (u.commands ∪ r.1, u.blocks ∪ r.2.1, u.positional || r.2.2.1,
     u.detected_languages ∪ r.2.2.2)

/-- The `AggregatedUsage` that recomputation from the table yields (the
snapshot includes a copy of the per-file table). -/
def Aggregator.recomputed (a : Aggregator) : AggregatedUsage :=
  let r := unionUsages a.file_usage
  ⟨r.1, r.2.1, r.2.2.1, a.file_usage, r.2.2.2⟩

/-- `Aggregator.get_usage`: cached snapshot if present, else recompute,
cache and return. -/
def Aggregator.get_usage (a : Aggregator) : AggregatedUsage × Aggregator :=
  match a.cached_usage with
  | some cached => (cached, a)
  | none => (a.recomputed, { a with cached_usage := some a.recomputed })

/-- `Aggregator.load_from_scan`. -/
def Aggregator.load_from_scan (a : Aggregator)
    (scanned : List (String × FileUsage)) : Aggregator :=
  ⟨scanned, none⟩

/-- `Aggregator.clear`. -/
def Aggregator.clear (a : Aggregator) : Aggregator :=
  ⟨[], none⟩

/-! ## Specification-side definitions (for the refinement claims) -/

/-- The cache invariant of the spec (§3, Aggregator state): whenever the
memo field is present it equals what recomputation from the table yields. -/
def Aggregator.cacheValid (a : Aggregator) : Prop :=
  ∀ c, a.cached_usage = some c → c = a.recomputed

/-- Modelled from the spec's extraction contract (§4.1), with the order as
amended: the surviving (stripped, non-empty) captures grouped by pattern in
the fixed pattern order, each group in match-occurrence order. -/
def extractSpec (content : Chars) : List Chars :=
  HYPERSCRIPT_PATTERNS.flatMap
    (fun pat =>
      ((patternMatches pat content).map (fun pc => pyStrip pc.2)).filter
        (fun s => !s.isEmpty))

/-- Insertion sort of annotated matches by start position (stable). -/
def insertByPos (x : Nat × Chars) : List (Nat × Chars) → List (Nat × Chars)
  | [] => [x]
  | y :: t => if x.1 < y.1 then x :: y :: t else y :: insertByPos x t

def sortByPos : List (Nat × Chars) → List (Nat × Chars)
  | [] => []
  | x :: t => insertByPos x (sortByPos t)

def allPatternMatches (content : Chars) : List (Nat × Chars) :=
  HYPERSCRIPT_PATTERNS.flatMap (fun pat => patternMatches pat content)

/-- The order C7 claims: all matches sorted by first occurrence position in
the content, then stripped and filtered as the extractor does. -/
def extractContentOrder (content : Chars) : List Chars :=
  ((sortByPos (allPatternMatches content)).map (fun pc => pyStrip pc.2)).filter
    (fun s => !s.isEmpty)

/-! # Theorems

### Helper lemmas -/

theorem lookupFU_insertFU_self (l : List (String × FileUsage)) (p : String)
    (u : FileUsage) : lookupFU (insertFU l p u) p = some u := by
  induction l with
  | nil => simp [insertFU, lookupFU]
  | cons h t ih =>
    obtain ⟨k, v⟩ := h
    by_cases hk : k = p
    · simp [insertFU, lookupFU, hk]
    · simp [insertFU, lookupFU, hk, ih]

theorem add_of_lookup_none {a : Aggregator} {p : String} {u : FileUsage}
    (h : lookupFU a.file_usage p = none) :
    a.add p u = (true, ⟨insertFU a.file_usage p u, none⟩) := by
  unfold Aggregator.add
  rw [h]

theorem add_of_lookup_some_unchanged {a : Aggregator} {p : String} {u e : FileUsage}
    (h : lookupFU a.file_usage p = some e)
    (hcond : e.truthy ∧ e.commands = u.commands ∧ e.blocks = u.blocks ∧
      e.positional = u.positional) :
    a.add p u = (false, a) := by
  unfold Aggregator.add
  rw [h]
  exact if_pos hcond

theorem add_of_lookup_some_changed {a : Aggregator} {p : String} {u e : FileUsage}
    (h : lookupFU a.file_usage p = some e)
    (hcond : ¬ (e.truthy ∧ e.commands = u.commands ∧ e.blocks = u.blocks ∧
      e.positional = u.positional)) :
    a.add p u = (true, ⟨insertFU a.file_usage p u, none⟩) := by
  unfold Aggregator.add
  rw [h]
  exact if_neg hcond

/-! ### C1 -/

/-- C1 (corrected): a `FileUsage` is falsy iff `commands` and `blocks` are
empty and `positional` is false — `detected_languages` plays no part in
`FileUsage.__bool__`, so a usage whose only populated field is
`detected_languages` is still empty/falsy. -/
theorem C1_falsiness (u : FileUsage) :
    (¬ u.truthy) ↔ (u.commands = ∅ ∧ u.blocks = ∅ ∧ u.positional = false) := by
  unfold FileUsage.truthy
  constructor
  · intro h
    push_neg at h
    exact ⟨h.1, h.2.1, by simpa using h.2.2⟩
  · rintro ⟨h1, h2, h3⟩ (h | h | h) <;> simp_all

/-- C1 counterexample: the claim calls a `FileUsage` whose only populated
field is `detected_languages` non-empty; on the code it is falsy. -/
theorem C1_counterexample : ¬ (FileUsage.mk ∅ ∅ false {"ja"}).truthy := by
  decide

/-! ### C2 -/

/-- C2 (corrected): when the stored usage for a tracked path is truthy and
the new usage differs only in `detected_languages`, `add` returns false and
leaves the aggregator completely unchanged — the cache is NOT invalidated,
so the next `get_usage` is exactly what it was before the call (it does not
pick up the changed language set). -/
theorem C2_language_only_change (a : Aggregator) (p : String) (u e : FileUsage)
    (hl : lookupFU a.file_usage p = some e) (ht : e.truthy)
    (hc : e.commands = u.commands) (hb : e.blocks = u.blocks)
    (hp : e.positional = u.positional) :
    a.add p u = (false, a) ∧ ((a.add p u).2).get_usage = a.get_usage := by
  have h1 : a.add p u = (false, a) :=
    add_of_lookup_some_unchanged hl ⟨ht, hc, hb, hp⟩
  exact ⟨h1, by rw [h1]⟩

theorem C2_language_only_change_witness :
    (Aggregator.mk [("p", FileUsage.mk {"toggle"} ∅ false ∅)] none).add "p"
        (FileUsage.mk {"toggle"} ∅ false {"ja"})
      = (false, Aggregator.mk [("p", FileUsage.mk {"toggle"} ∅ false ∅)] none) :=
  (C2_language_only_change
    (Aggregator.mk [("p", FileUsage.mk {"toggle"} ∅ false ∅)] none) "p"
    (FileUsage.mk {"toggle"} ∅ false {"ja"}) (FileUsage.mk {"toggle"} ∅ false ∅)
    (by decide) (by decide) (by decide) (by decide) (by decide)).1

/-- C2 counterexample: tracked path `p` with usage `{toggle}` and a warm
cache; adding a usage that differs only in `detected_languages = {ja}`
returns false, but the cache is still present (not invalidated) and the
next `get_usage` reports no detected languages at all. -/
theorem C2_counterexample :
    ((((Aggregator.mk [("p", FileUsage.mk {"toggle"} ∅ false ∅)] none).get_usage).2).add
        "p" (FileUsage.mk {"toggle"} ∅ false {"ja"})).1 = false ∧
    (((((Aggregator.mk [("p", FileUsage.mk {"toggle"} ∅ false ∅)] none).get_usage).2).add
        "p" (FileUsage.mk {"toggle"} ∅ false {"ja"})).2).cached_usage ≠ none ∧
    ((((((Aggregator.mk [("p", FileUsage.mk {"toggle"} ∅ false ∅)] none).get_usage).2).add
        "p" (FileUsage.mk {"toggle"} ∅ false {"ja"})).2).get_usage).1.detected_languages
      = ∅ := by
  decide

/-! ### C3 and C4: region selection -/

theorem dis_EA_SA : ∀ x ∈ regionEastAsian, x ∉ regionSouthAsian := by decide

theorem dis_EA_SL : ∀ x ∈ regionEastAsian, x ∉ regionSlavic := by decide

theorem dis_EA_SEA : ∀ x ∈ regionEastAsian, x ∉ regionSoutheastAsian := by decide

theorem dis_EA_W : ∀ x ∈ regionEastAsian, x ∉ regionWestern := by decide

theorem dis_SA_SL : ∀ x ∈ regionSouthAsian, x ∉ regionSlavic := by decide

theorem dis_SA_SEA : ∀ x ∈ regionSouthAsian, x ∉ regionSoutheastAsian := by decide

theorem dis_SA_W : ∀ x ∈ regionSouthAsian, x ∉ regionWestern := by decide

theorem dis_SL_SEA : ∀ x ∈ regionSlavic, x ∉ regionSoutheastAsian := by decide

theorem dis_SL_W : ∀ x ∈ regionSlavic, x ∉ regionWestern := by decide

theorem dis_SEA_W : ∀ x ∈ regionSoutheastAsian, x ∉ regionWestern := by decide

theorem dis_SA_P : ∀ x ∈ regionSouthAsian, x ∉ regionPriority := by decide

theorem dis_SL_P : ∀ x ∈ regionSlavic, x ∉ regionPriority := by decide

theorem sub_EA_P : ∀ x ∈ regionEastAsian, x ∈ regionPriority := by decide

theorem sub_W_P : ∀ x ∈ regionWestern, x ∈ regionPriority := by decide

theorem unionSubsetLeft {S1 S2 : Finset String} {A : List String}
    (h : ∀ l ∈ S1 ∪ S2, l ∈ A) : ∀ l ∈ S1, l ∈ A :=
  fun l hl => h l (Finset.mem_union_left _ hl)

theorem notBoth {A B : List String} (hAB : ∀ x ∈ A, x ∉ B) {S : Finset String}
    (hne : ¬ S = ∅) (hA : ∀ l ∈ S, l ∈ A) (hB : ∀ l ∈ S, l ∈ B) : False := by
  obtain ⟨x, hx⟩ := Finset.nonempty_iff_ne_empty.mpr hne
  exact hAB x (hA x hx) (hB x hx)

theorem orl_ea : optionRegionLangs (some "east-asian") = regionEastAsian := by decide

theorem orl_sa : optionRegionLangs (some "south-asian") = regionSouthAsian := by decide

theorem orl_sl : optionRegionLangs (some "slavic") = regionSlavic := by decide

theorem orl_sea : optionRegionLangs (some "southeast-asian") = regionSoutheastAsian := by
  decide

theorem orl_w : optionRegionLangs (some "western") = regionWestern := by decide

theorem orl_p : optionRegionLangs (some "priority") = regionPriority := by decide

theorem orl_all : optionRegionLangs (some "all") = SUPPORTED_LANGUAGES := by decide

/-- C3 (corrected): region selection is monotone — the code set of
`selectRegion S1` is contained in that of `selectRegion (S1 ∪ S2)` — in
every case except the one the counterexample exhibits: `selectRegion S1 =
southeast-asian` while `selectRegion (S1 ∪ S2) = priority` (possible exactly
when S1 ⊆ {id, vi}, since priority lacks th and tl). -/
theorem C3_monotone_except_sea_priority (S1 S2 : Finset String) :
    (∀ x, x ∈ optionRegionLangs (get_optimal_region S1) →
        x ∈ optionRegionLangs (get_optimal_region (S1 ∪ S2))) ∨
    (get_optimal_region S1 = some "southeast-asian" ∧
      get_optimal_region (S1 ∪ S2) = some "priority") := by
  by_cases h0 : S1 = ∅
  · left
    intro x hx
    rw [h0] at hx
    simp [get_optimal_region, optionRegionLangs] at hx
  · have hU0 : ¬ (S1 ∪ S2 = ∅) := fun h =>
      h0 (Finset.subset_empty.mp (h ▸ Finset.subset_union_left))
    unfold get_optimal_region
    rw [if_neg h0, if_neg hU0]
    by_cases hU1 : ∀ l ∈ S1 ∪ S2, l ∈ regionEastAsian
    · have h1 := unionSubsetLeft hU1
      rw [if_pos hU1, if_pos h1]
      left; intro x hx; exact hx
    rw [if_neg hU1]
    by_cases hU2 : ∀ l ∈ S1 ∪ S2, l ∈ regionSouthAsian
    · have hs := unionSubsetLeft hU2
      have h1 : ¬ ∀ l ∈ S1, l ∈ regionEastAsian := fun h1 => notBoth dis_EA_SA h0 h1 hs
      rw [if_pos hU2, if_neg h1, if_pos hs]
      left; intro x hx; exact hx
    rw [if_neg hU2]
    by_cases hU3 : ∀ l ∈ S1 ∪ S2, l ∈ regionSlavic
    · have hs := unionSubsetLeft hU3
      have h1 : ¬ ∀ l ∈ S1, l ∈ regionEastAsian := fun h1 => notBoth dis_EA_SL h0 h1 hs
      have h2 : ¬ ∀ l ∈ S1, l ∈ regionSouthAsian := fun h2 => notBoth dis_SA_SL h0 h2 hs
      rw [if_pos hU3, if_neg h1, if_neg h2, if_pos hs]
      left; intro x hx; exact hx
    rw [if_neg hU3]
    by_cases hU4 : ∀ l ∈ S1 ∪ S2, l ∈ regionSoutheastAsian
    · have hs := unionSubsetLeft hU4
      have h1 : ¬ ∀ l ∈ S1, l ∈ regionEastAsian := fun h1 => notBoth dis_EA_SEA h0 h1 hs
      have h2 : ¬ ∀ l ∈ S1, l ∈ regionSouthAsian := fun h2 => notBoth dis_SA_SEA h0 h2 hs
      have h3 : ¬ ∀ l ∈ S1, l ∈ regionSlavic := fun h3 => notBoth dis_SL_SEA h0 h3 hs
      rw [if_pos hU4, if_neg h1, if_neg h2, if_neg h3, if_pos hs]
      left; intro x hx; exact hx
    rw [if_neg hU4]
    by_cases hU5 : ∀ l ∈ S1 ∪ S2, l ∈ regionWestern
    · have hs := unionSubsetLeft hU5
      have h1 : ¬ ∀ l ∈ S1, l ∈ regionEastAsian := fun h1 => notBoth dis_EA_W h0 h1 hs
      have h2 : ¬ ∀ l ∈ S1, l ∈ regionSouthAsian := fun h2 => notBoth dis_SA_W h0 h2 hs
      have h3 : ¬ ∀ l ∈ S1, l ∈ regionSlavic := fun h3 => notBoth dis_SL_W h0 h3 hs
      have h4 : ¬ ∀ l ∈ S1, l ∈ regionSoutheastAsian := fun h4 =>
        notBoth dis_SEA_W h0 h4 hs
      rw [if_pos hU5, if_neg h1, if_neg h2, if_neg h3, if_neg h4, if_pos hs]
      left; intro x hx; exact hx
    rw [if_neg hU5]
    by_cases hU6 : ∀ l ∈ S1 ∪ S2, l ∈ regionPriority
    · rw [if_pos hU6]
      have h6 := unionSubsetLeft hU6
      by_cases h1 : ∀ l ∈ S1, l ∈ regionEastAsian
      · rw [if_pos h1]
        left
        intro x hx
        rw [orl_ea] at hx
        rw [orl_p]
        exact sub_EA_P x hx
      rw [if_neg h1]
      by_cases h2 : ∀ l ∈ S1, l ∈ regionSouthAsian
      · exact (notBoth dis_SA_P h0 h2 h6).elim
      rw [if_neg h2]
      by_cases h3 : ∀ l ∈ S1, l ∈ regionSlavic
      · exact (notBoth dis_SL_P h0 h3 h6).elim
      rw [if_neg h3]
      by_cases h4 : ∀ l ∈ S1, l ∈ regionSoutheastAsian
      · rw [if_pos h4]
        right
        exact ⟨rfl, rfl⟩
      rw [if_neg h4]
      by_cases h5 : ∀ l ∈ S1, l ∈ regionWestern
      · rw [if_pos h5]
        left
        intro x hx
        rw [orl_w] at hx
        rw [orl_p]
        exact sub_W_P x hx
      rw [if_neg h5, if_pos h6]
      left; intro x hx; exact hx
    · rw [if_neg hU6]
      left
      intro x hx
      rw [orl_all]
      split_ifs at hx
      · rw [orl_ea] at hx; revert hx; revert x; decide
      · rw [orl_sa] at hx; revert hx; revert x; decide
      · rw [orl_sl] at hx; revert hx; revert x; decide
      · rw [orl_sea] at hx; revert hx; revert x; decide
      · rw [orl_w] at hx; revert hx; revert x; decide
      · rw [orl_p] at hx; revert hx; revert x; decide
      · rw [orl_all] at hx; exact hx

/-- C3 counterexample: S1 = {id} selects southeast-asian (codes
{id, vi, th, tl}), S1 ∪ {ja} selects priority, and th, tl are not priority
codes, so the claimed subset relation fails. -/
theorem C3_counterexample :
    get_optimal_region {"id"} = some "southeast-asian" ∧
    get_optimal_region ({"id"} ∪ {"ja"}) = some "priority" ∧
    ¬ (∀ x, x ∈ optionRegionLangs (get_optimal_region {"id"}) →
        x ∈ optionRegionLangs (get_optimal_region ({"id"} ∪ {"ja"}))) := by
  decide

/-- C4 (confirmed): `get_optimal_region` returns `none` on the empty set and
otherwise equals the spec's procedure — first full-superset region in the
literal order east-asian, south-asian, slavic, southeast-asian, western,
then priority, else the catch-all all. -/
theorem C4_region_order (S : Finset String) :
    get_optimal_region S = specSelectRegion S := by
  have e1 : regionLangs "east-asian" = regionEastAsian := by decide
  have e2 : regionLangs "south-asian" = regionSouthAsian := by decide
  have e3 : regionLangs "slavic" = regionSlavic := by decide
  have e4 : regionLangs "southeast-asian" = regionSoutheastAsian := by decide
  have e5 : regionLangs "western" = regionWestern := by decide
  have e6 : regionLangs "priority" = regionPriority := by decide
  unfold specSelectRegion get_optimal_region
  simp only [specCheckOrder, firstSuperset, e1, e2, e3, e4, e5, e6]
  split_ifs <;> simp_all

/-! ### C5 -/

/-- C5 (corrected): `add` returns true iff the path is untracked, OR the
stored usage is falsy (`if existing:` skips the comparison for an empty
usage), OR commands, blocks or positional differ; every true return leaves
the cache invalidated; and a second `add` with the same path and usage
returns false provided the usage is truthy. -/
theorem C5_add_change_detection (a : Aggregator) (p : String) (u : FileUsage) :
    ((a.add p u).1 = true ↔
      lookupFU a.file_usage p = none ∨
        ∃ e, lookupFU a.file_usage p = some e ∧
          (¬ e.truthy ∨ e.commands ≠ u.commands ∨ e.blocks ≠ u.blocks ∨
            e.positional ≠ u.positional)) ∧
    ((a.add p u).1 = true → ((a.add p u).2).cached_usage = none) ∧
    (u.truthy → (((a.add p u).2).add p u).1 = false) := by
  cases hl : lookupFU a.file_usage p with
  | none =>
    rw [add_of_lookup_none hl]
    refine ⟨by simp, by simp, ?_⟩
    intro hu
    have h2 : lookupFU (insertFU a.file_usage p u) p = some u :=
      lookupFU_insertFU_self a.file_usage p u
    rw [add_of_lookup_some_unchanged h2 ⟨hu, rfl, rfl, rfl⟩]
  | some e =>
    by_cases hcond : e.truthy ∧ e.commands = u.commands ∧ e.blocks = u.blocks ∧
        e.positional = u.positional
    · rw [add_of_lookup_some_unchanged hl hcond]
      obtain ⟨ht, hc, hb, hp⟩ := hcond
      refine ⟨?_, by simp, ?_⟩
      · simp only [hl]
        constructor
        · intro h; cases h
        · rintro (h | ⟨e', he', h⟩)
          · cases h
          · injection he' with he'
            subst he'
            rcases h with h | h | h | h <;> exact absurd (by assumption) h
      · intro _
        rw [add_of_lookup_some_unchanged hl ⟨ht, hc, hb, hp⟩]
    · rw [add_of_lookup_some_changed hl hcond]
      refine ⟨?_, by simp, ?_⟩
      · simp only [hl]
        constructor
        · intro _
          right
          refine ⟨e, rfl, ?_⟩
          by_contra hno
          push_neg at hno
          exact hcond hno
        · intro _
          trivial
      · intro hu
        have h2 : lookupFU (insertFU a.file_usage p u) p = some u :=
          lookupFU_insertFU_self a.file_usage p u
        rw [add_of_lookup_some_unchanged h2 ⟨hu, rfl, rfl, rfl⟩]

/-- C5 counterexample: for an empty (falsy) usage, `add` twice in a row with
the same path and unchanged usage returns true both times, where the claim
says true then false. -/
theorem C5_counterexample :
    ((Aggregator.empty.add "p" emptyFileUsage).1 = true) ∧
    (((Aggregator.empty.add "p" emptyFileUsage).2).add "p" emptyFileUsage).1 = true := by
  decide

/-! ### C6 -/

/-- C6 (confirmed): every aggregator operation preserves the invariant that
a present cache equals what recomputation from the file table yields. -/
theorem C6_cache_invariant (a : Aggregator) (p q : String) (u : FileUsage)
    (m : List (String × FileUsage)) (h : a.cacheValid) :
    ((a.add p u).2).cacheValid ∧ ((a.remove q).2).cacheValid ∧
      (a.load_from_scan m).cacheValid ∧ (a.clear).cacheValid ∧
      ((a.get_usage).2).cacheValid := by
  have hnone : ∀ l : List (String × FileUsage), (Aggregator.mk l none).cacheValid := by
    intro l c hc
    cases hc
  refine ⟨?_, ?_, ?_, ?_, ?_⟩
  · cases hl : lookupFU a.file_usage p with
    | none => rw [add_of_lookup_none hl]; exact hnone _
    | some e =>
      by_cases hcond : e.truthy ∧ e.commands = u.commands ∧ e.blocks = u.blocks ∧
          e.positional = u.positional
      · rw [add_of_lookup_some_unchanged hl hcond]; exact h
      · rw [add_of_lookup_some_changed hl hcond]; exact hnone _
  · unfold Aggregator.remove
    cases hl : lookupFU a.file_usage q with
    | none => exact h
    | some e => exact hnone _
  · exact hnone _
  · exact hnone _
  · unfold Aggregator.get_usage
    cases hc : a.cached_usage with
    | some c => exact h
    | none =>
      intro c hc2
      injection hc2 with h2
      rw [← h2]
      rfl

theorem C6_cache_invariant_witness :
    ((Aggregator.empty.add "p" emptyFileUsage).2).cacheValid ∧
      ((Aggregator.empty.remove "q").2).cacheValid ∧
      (Aggregator.empty.load_from_scan []).cacheValid ∧
      (Aggregator.empty.clear).cacheValid ∧
      ((Aggregator.empty.get_usage).2).cacheValid :=
  C6_cache_invariant Aggregator.empty "p" "q" emptyFileUsage []
    (fun _ hc => nomatch hc)

/-! ### C7: extraction order -/

theorem dropWhile_self (p : Char → Bool) (l : Chars) :
    (l.dropWhile p).dropWhile p = l.dropWhile p := by
  induction l with
  | nil => rfl
  | cons c t ih =>
    by_cases h : p c
    · rw [List.dropWhile_cons_of_pos h, ih]
    · rw [List.dropWhile_cons_of_neg h, List.dropWhile_cons_of_neg h]

theorem getLast?_dropWhile (p : Char → Bool) (l : Chars)
    (h : l.dropWhile p ≠ []) : (l.dropWhile p).getLast? = l.getLast? := by
  induction l with
  | nil => simp at h
  | cons c t ih =>
    by_cases hc : p c
    · rw [List.dropWhile_cons_of_pos hc] at h ⊢
      have ht : t ≠ [] := by
        intro h'
        rw [h'] at h
        simp at h
      rw [ih h, List.getLast?_cons]
      cases hgl : t.getLast? with
      | none => exact absurd (List.getLast?_eq_none_iff.mp hgl) ht
      | some x => rfl
    · rw [List.dropWhile_cons_of_neg hc]

theorem head?_dropWhile_not (p : Char → Bool) (l : Chars) :
    ∀ c, (l.dropWhile p).head? = some c → p c = false := by
  induction l with
  | nil => intro c hc; cases hc
  | cons d t ih =>
    intro c hc
    by_cases hd : p d
    · rw [List.dropWhile_cons_of_pos hd] at hc
      exact ih c hc
    · rw [List.dropWhile_cons_of_neg hd] at hc
      injection hc with hc
      rw [← hc]
      exact Bool.not_eq_true _ ▸ hd

theorem dropWhile_eq_self_of_head (p : Char → Bool) (l : Chars)
    (h : ∀ c, l.head? = some c → p c = false) : l.dropWhile p = l := by
  cases l with
  | nil => rfl
  | cons c t =>
    rw [List.dropWhile_cons_of_neg]
    rw [h c rfl]
    exact Bool.false_ne_true

/-- Stripping is idempotent: the results of `str.strip()` are fixed points. -/
theorem pyStrip_idem (s : Chars) : pyStrip (pyStrip s) = pyStrip s := by
  unfold pyStrip
  set A := s.dropWhile isPySpace with hA
  set B := A.reverse.dropWhile isPySpace with hB
  by_cases hBnil : B = []
  · rw [hBnil]
    rfl
  · have h1 : B.reverse.dropWhile isPySpace = B.reverse := by
      apply dropWhile_eq_self_of_head
      intro c hc
      rw [List.head?_reverse] at hc
      rw [hB] at hc
      rw [getLast?_dropWhile _ _ (hB ▸ hBnil)] at hc
      rw [List.getLast?_reverse] at hc
      exact head?_dropWhile_not isPySpace s c (hA ▸ hc)
    rw [h1, List.reverse_reverse, hB, dropWhile_self]

theorem appendScript_foldl (L : List (Nat × Chars)) (acc : List Chars) :
    L.foldl appendScript acc
      = acc ++ (L.map (fun pc => pyStrip pc.2)).filter (fun s => !s.isEmpty) := by
  induction L generalizing acc with
  | nil => simp
  | cons h t ih =>
    rw [List.foldl_cons, ih]
    unfold appendScript
    by_cases he : (pyStrip h.2).isEmpty
    · simp [he]
    · simp [he]

theorem foldl_append_flatMap {α β : Type} (P : List α) (g : α → List β) (acc : List β) :
    P.foldl (fun a p => a ++ g p) acc = acc ++ P.flatMap g := by
  induction P generalizing acc with
  | nil => simp
  | cons h t ih => simp [ih, List.append_assoc]

/-- C7 (corrected): `extract_hyperscript` returns exactly the stripped
captures that remain non-empty, duplicates preserved, in pattern-major
order (the fixed pattern-list order, then match-occurrence order within
each pattern) — not in order of first match occurrence in the content. -/
theorem C7_extraction_order (content : Chars) :
    extract_hyperscript content = extractSpec content ∧
    ∀ s ∈ extract_hyperscript content, s ≠ [] ∧ pyStrip s = s := by
  have heq : extract_hyperscript content = extractSpec content := by
    unfold extract_hyperscript extractSpec
    simp only [appendScript_foldl]
    rw [foldl_append_flatMap]
    simp
  refine ⟨heq, ?_⟩
  intro s hs
  rw [heq] at hs
  unfold extractSpec at hs
  rw [List.mem_flatMap] at hs
  obtain ⟨pat, hpat, hmem⟩ := hs
  rw [List.mem_filter] at hmem
  obtain ⟨hmap, hne⟩ := hmem
  rw [List.mem_map] at hmap
  obtain ⟨pc, hpc, hstrip⟩ := hmap
  constructor
  · intro h'
    rw [h'] at hne
    simp at hne
  · rw [← hstrip, pyStrip_idem]

/-- C7 counterexample: in `data-hs="add" _='toggle'` the `data-hs` match
occurs first in the content, yet the `_='...'` pattern is applied first, so
the extractor yields [toggle, add] while content-occurrence order would be
[add, toggle]. -/
theorem C7_counterexample :
    extract_hyperscript ("data-hs=\"add\" _='toggle'").toList
        = [("toggle").toList, ("add").toList] ∧
    extractContentOrder ("data-hs=\"add\" _='toggle'").toList
        = [("add").toList, ("toggle").toList] ∧
    extract_hyperscript ("data-hs=\"add\" _='toggle'").toList
        ≠ extractContentOrder ("data-hs=\"add\" _='toggle'").toList := by
  decide

/-! ### C8: language detection policy -/

theorem mem_detect_foldl (script : Chars) (L : List (String × List String))
    (acc : Finset String) (lang : String) :
    lang ∈ L.foldl
        (fun detected entry =>
          if langHit entry.1 entry.2 script then insert entry.1 detected else detected)
        acc ↔
      lang ∈ acc ∨ ∃ kws, (lang, kws) ∈ L ∧ langHit lang kws script = true := by
  induction L generalizing acc with
  | nil => simp
  | cons e t ih =>
    obtain ⟨l0, kws0⟩ := e
    rw [List.foldl_cons]
    by_cases h : langHit l0 kws0 script
    · rw [if_pos h, ih]
      constructor
      · rintro (hm | hm)
        · rcases Finset.mem_insert.mp hm with hm | hm
          · subst hm
            exact Or.inr ⟨kws0, List.mem_cons_self _ _, h⟩
          · exact Or.inl hm
        · obtain ⟨kws, hk, hh⟩ := hm
          exact Or.inr ⟨kws, List.mem_cons_of_mem _ hk, hh⟩
      · rintro (hm | ⟨kws, hk, hh⟩)
        · exact Or.inl (Finset.mem_insert_of_mem hm)
        · rcases List.mem_cons.mp hk with hk | hk
          · injection hk with h1 h2
            subst h1
            exact Or.inl (Finset.mem_insert_self _ _)
          · exact Or.inr ⟨kws, hk, hh⟩
    · rw [if_neg h, ih]
      constructor
      · rintro (hm | ⟨kws, hk, hh⟩)
        · exact Or.inl hm
        · exact Or.inr ⟨kws, List.mem_cons_of_mem _ hk, hh⟩
      · rintro (hm | ⟨kws, hk, hh⟩)
        · exact Or.inl hm
        · rcases List.mem_cons.mp hk with hk | hk
          · injection hk with h1 h2
            subst h1
            subst h2
            exact absurd hh (by simpa using h)
          · exact Or.inr ⟨kws, hk, hh⟩

theorem mem_detect (script : Chars) (lang : String) :
    lang ∈ detect_languages script ↔
      ∃ kws, (lang, kws) ∈ LANGUAGE_KEYWORDS ∧ langHit lang kws script = true := by
  unfold detect_languages
  rw [mem_detect_foldl]
  simp

theorem langKeysNodup : (LANGUAGE_KEYWORDS.map Prod.fst).Nodup := by decide

theorem eq_of_fst_nodup {l : List (String × List String)}
    (h : (l.map Prod.fst).Nodup) {a : String} {b b' : List String}
    (h1 : (a, b) ∈ l) (h2 : (a, b') ∈ l) : b = b' := by
  induction l with
  | nil => cases h1
  | cons e t ih =>
    rw [List.map_cons, List.nodup_cons] at h
    rcases List.mem_cons.mp h1 with h1' | h1' <;> rcases List.mem_cons.mp h2 with h2' | h2'
    · rw [← h1'] at h2'
      injection h2' with hfst hsnd
      exact hsnd.symm
    · exfalso
      apply h.1
      rw [← h1']
      simpa using List.mem_map_of_mem Prod.fst h2'
    · exfalso
      apply h.1
      rw [← h2']
      simpa using List.mem_map_of_mem Prod.fst h1'
    · exact ih h.2 h1' h2'

/-- C8 (confirmed): the detected-language set never contains the base code
`en`; a Latin-script language is in the set iff one of its keywords of
length strictly greater than 2 matches as a whole word in the lower-cased
script (so keywords of length at most 2 never cause detection); a
non-Latin-script language is in the set iff one of its keywords occurs as a
plain substring of the script. -/
theorem C8_language_detection (script : Chars) :
    "en" ∉ detect_languages script ∧
    (∀ lang kws, (lang, kws) ∈ LANGUAGE_KEYWORDS → lang ∉ NON_LATIN_LANGS →
      (lang ∈ detect_languages script ↔
        ∃ kw ∈ kws, 2 < kw.length ∧
          wholeWord (lowerChars kw.toList) (lowerChars script) = true)) ∧
    (∀ lang kws, (lang, kws) ∈ LANGUAGE_KEYWORDS → lang ∈ NON_LATIN_LANGS →
      (lang ∈ detect_languages script ↔
        ∃ kw ∈ kws, containsSub kw.toList script = true)) ∧
    (∀ lang, lang ∈ detect_languages script →
      ∃ kws, (lang, kws) ∈ LANGUAGE_KEYWORDS) := by
  refine ⟨?_, ?_, ?_, ?_⟩
  · intro h
    obtain ⟨kws, hk, _⟩ := (mem_detect script "en").mp h
    have : "en" ∈ LANGUAGE_KEYWORDS.map Prod.fst := List.mem_map_of_mem Prod.fst hk
    revert this
    decide
  · intro lang kws hk hnl
    rw [mem_detect]
    constructor
    · rintro ⟨kws', hk', hh⟩
      rw [eq_of_fst_nodup langKeysNodup hk' hk] at hh
      unfold langHit at hh
      rw [if_neg hnl] at hh
      rw [List.any_eq_true] at hh
      obtain ⟨kw, hkw, hb⟩ := hh
      rw [Bool.and_eq_true, decide_eq_true_eq] at hb
      exact ⟨kw, hkw, hb.1, hb.2⟩
    · rintro ⟨kw, hkw, hlen, hw⟩
      refine ⟨kws, hk, ?_⟩
      unfold langHit
      rw [if_neg hnl, List.any_eq_true]
      exact ⟨kw, hkw, by rw [Bool.and_eq_true, decide_eq_true_eq]; exact ⟨hlen, hw⟩⟩
  · intro lang kws hk hnl
    rw [mem_detect]
    constructor
    · rintro ⟨kws', hk', hh⟩
      rw [eq_of_fst_nodup langKeysNodup hk' hk] at hh
      unfold langHit at hh
      rw [if_pos hnl, List.any_eq_true] at hh
      exact hh
    · rintro ⟨kw, hkw, hc⟩
      refine ⟨kws, hk, ?_⟩
      unfold langHit
      rw [if_pos hnl, List.any_eq_true]
      exact ⟨kw, hkw, hc⟩
  · intro lang h
    obtain ⟨kws, hk, _⟩ := (mem_detect script lang).mp h
    exact ⟨kws, hk⟩

/-! ### C9 -/

/-- C9 (confirmed): any read failure makes `scan_file` return the empty
usage (the model's total function mirrors the source's catch-all except
clause — nothing propagates), and `scan_directory` on a nonexistent root
returns the empty mapping. -/
theorem C9_soft_failures (sc : Scanner) (read : String → Option Chars) :
    (∀ path, read path = none → sc.scan_file read path = emptyFileUsage) ∧
    (∀ d : Directory, d.present = false → sc.scan_directory read d = []) := by
  constructor
  · intro path h
    unfold Scanner.scan_file
    rw [h]
  · intro d h
    unfold Scanner.scan_directory
    rw [h]
    simp

/-! ### C10 -/

theorem scanDir_mem_aux (sc : Scanner) (read : String → Option Chars)
    (files : List String) (acc : List (String × FileUsage)) (p : String)
    (u : FileUsage)
    (h : (p, u) ∈ files.foldl
        (fun results path =>
          if sc.should_scan path then
            let usage := sc.scan_file read path
            if usage.truthy then results ++ [(path, usage)] else results
          else results) acc) :
    (p, u) ∈ acc ∨ (u = sc.scan_file read p ∧ u.truthy) := by
  induction files generalizing acc with
  | nil => exact Or.inl h
  | cons f t ih =>
    simp only [List.foldl] at h
    rcases ih _ h with h' | h'
    · by_cases hs : sc.should_scan f = true
      · rw [if_pos hs] at h'
        by_cases htr : (sc.scan_file read f).truthy
        · rw [if_pos htr] at h'
          rcases List.mem_append.mp h' with h'' | h''
          · exact Or.inl h''
          · simp only [List.mem_singleton, Prod.mk.injEq] at h''
            obtain ⟨hp, hu⟩ := h''
            subst hp
            subst hu
            exact Or.inr ⟨rfl, htr⟩
        · rw [if_neg htr] at h'
          exact Or.inl h'
      · rw [if_neg hs] at h'
        exact Or.inl h'
    · exact Or.inr h'

/-- C10 (confirmed): every usage in a directory-scan result has non-empty
commands, non-empty blocks, or positional set; a file whose scan yields only
detected languages (a falsy usage) never appears in the mapping. -/
theorem C10_language_only_files_omitted (sc : Scanner) (read : String → Option Chars)
    (d : Directory) :
    (∀ p u, (p, u) ∈ sc.scan_directory read d →
        (u.commands ≠ ∅ ∨ u.blocks ≠ ∅ ∨ u.positional = true)) ∧
    (∀ p, ¬ (sc.scan_file read p).truthy →
        ∀ u, (p, u) ∉ sc.scan_directory read d) := by
  have key : ∀ p u, (p, u) ∈ sc.scan_directory read d →
      u = sc.scan_file read p ∧ u.truthy := by
    intro p u h
    unfold Scanner.scan_directory at h
    by_cases hp : d.present = false
    · rw [if_pos hp] at h
      cases h
    · rw [if_neg hp] at h
      rcases scanDir_mem_aux sc read d.files [] p u h with h' | h'
      · cases h'
      · exact h'
  constructor
  · intro p u h
    exact (key p u h).2
  · intro p hnt u h
    exact hnt ((key p u h).1 ▸ (key p u h).2)

end Lokascript
